import Mathlib

/-!
Shallow embedding of the country/exchange-rate REST service
(`src/main.py`, `src/services/country_exchange_rate.py`,
`src/services/country_data.py`, `src/services/http_client.py`,
`src/model/index.py`, `src/core/exceptions.py`).

Python strings are modelled as `List Char`; Python `str.lower()` and the SQL
`lower()` used by SQLAlchemy's `ilike`/`func.lower` are both modelled as
`List.map Char.toLower` (both lowercase ASCII letters `A`-`Z`).
Python `int`/`float` numeric payload values are modelled as `Int`
(the service's `Rate` pydantic model declares `rates : Dict[str, int]`,
`population` is `int`, and the multiplier is an `int`).
Python `None` is modelled as `Option.none`.
`datetime.now(timezone.utc)` is modelled by a `now : Nat` parameter.
The filesystem state relevant to the service (whether `cache/summary.png`
exists) is a `Bool` field of the store state.
-/

/-- Model of a Python string: a list of characters. -/
abbrev Str := List Char

deriving instance DecidableEq for Except

/-- Model of Python `str.lower()` and of the SQL `lower()` function applied
by SQLAlchemy (`ilike`, `func.lower`): character-wise ASCII lowercasing. -/
def lowerStr (s : Str) : Str := s.map Char.toLower

/-- Embeds `core/exceptions.py` `AppException`: a message and an HTTP status
code.  `NotFoundException` carries 404, `BadRequestException` 400,
`ExternalServiceException` 502. -/
structure AppException where
  message : Str
  status_code : Nat
deriving DecidableEq

/-- Embeds `core/exceptions.py` `NotFoundException` (status 404). -/
def notFoundException (m : Str) : AppException := ⟨m, 404⟩

/-- Embeds `core/exceptions.py` `BadRequestException` (status 400). -/
def badRequestException (m : Str) : AppException := ⟨m, 400⟩

/-- Embeds `core/exceptions.py` `ExternalServiceException` (status 502,
`HTTP_502_BAD_GATEWAY`). -/
def externalServiceException (m : Str) : AppException := ⟨m, 502⟩

/-- Outcome of running a request handler, distinguishing a Python exception
that was raised (and is translated by `core/error_handlers.py`) from a value
returned normally.  `typeError` models an unhandled Python `TypeError`
(caught only by the generic `Exception` handler, which answers HTTP 500);
`nameError` models a reference to an undefined name. -/
inductive PyError where
  | typeError (msg : Str)
  | nameError (msg : Str)
  | app (e : AppException)
deriving DecidableEq

/-- Embeds `model/index.py` `Currency` (pydantic): `code`, `name`, `symbol`.
The `name` field is called `cname` here because the record's own `name`
projection would clash in Lean. -/
structure Currency where
  code : Str
  cname : Str
  symbol : Str
deriving DecidableEq

/-- Embeds `model/index.py` `CountryItem` (pydantic): the transient fetch
result produced by `services/country_data.py` `fetch_all_countries`. -/
structure CountryItem where
  name : Str
  capital : Option Str
  region : Option Str
  population : Int
  currencies : Currency
  flag : Option Str
  last_refreshed_at : Str
deriving DecidableEq

/-- The dict appended to `complete_data_db` by
`services/country_exchange_rate.py` `extract_rate` for each country. -/
structure CountryRow where
  name : Str
  capital : Option Str
  region : Option Str
  population : Int
  currency_code : Option Str
  exchange_rate : Option Int
  estimated_gdp : Option Int
  flag_url : Option Str
  last_refreshed_at : Str
deriving DecidableEq

/-- Python truthiness of the `exchange_rate` value (`None` or a number):
`None` and `0` are falsy, every other number is truthy.  Used by the
condition `... and exchange_rate` in `extract_rate`. -/
def pyTruthyRate : Option Int → Bool
  | none => false
  | some r => r != 0

/-- Embeds the per-item body of the `for item in data:` loop of
`services/country_exchange_rate.py` `extract_rate` (lines 37-54):

* `currency_code = item.currencies.code if item.currencies.code != "" else None`
* `exchange_rate = response['rates'].get(currency_code, None) if currency_code else None`
* `estimated_gdp = (item.population * randint(1000, 2000) * exchange_rate)
     if item.currencies.code != "" and exchange_rate else
     (0 if item.currencies.symbol == "" else None)`

`rates` models the `response['rates']` dict (`.get` with default `None`),
`m` models the value drawn by `randint(1000, 2000)` for this iteration. -/
def deriveRow (rates : Str → Option Int) (m : Int) (item : CountryItem) : CountryRow :=
  let currency_code : Option Str :=
    if item.currencies.code ≠ [] then some item.currencies.code else none
  let exchange_rate : Option Int :=
    match currency_code with
    | some c => rates c
    | none => none
  let estimated_gdp : Option Int :=
    if item.currencies.code ≠ [] ∧ pyTruthyRate exchange_rate then
      some (item.population * m * exchange_rate.getD 0)
    else if item.currencies.symbol = [] then some 0 else none
  { name := item.name
    capital := item.capital
    region := item.region
    population := item.population
    currency_code := currency_code
    exchange_rate := exchange_rate
    estimated_gdp := estimated_gdp
    flag_url := item.flag
    last_refreshed_at := item.last_refreshed_at }

/-- The `for item in data:` loop of `extract_rate`, with `i` the iteration
index: `mult i` models the fresh `randint(1000, 2000)` drawn at iteration
`i`. -/
def rowsFrom (rates : Str → Option Int) (mult : Nat → Int) :
    Nat → List CountryItem → List CountryRow
  | _, [] => []
  | i, item :: rest => deriveRow rates (mult i) item :: rowsFrom rates mult (i + 1) rest

/-- Embeds `services/country_exchange_rate.py` `extract_rate` (lines 23-56),
with the HTTP call abstracted: `result` is the `result` field of the Exchange
Rate API payload and `rates` its `rates` mapping.

When `response['result'] != "success"`, the source evaluates
`JSONResponse(content={ { "error": ..., "details": ... } }, status_code=503, ...)`:
the doubled braces make the `content` argument a Python set literal whose
sole element is a dict, and a dict is unhashable, so constructing the set
raises `TypeError` before anything is returned.  This is modelled as
`PyError.typeError`. -/
def extract_rate (result : Str) (rates : Str → Option Int)
    (data : List CountryItem) (mult : Nat → Int) : Except PyError (List CountryRow) :=
  if result ≠ ("success".data) then
    .error (.typeError ("unhashable type: dict".data))
  else
    .ok (rowsFrom rates mult 0 data)

/-- Embeds `model/index.py` `Country` (SQLAlchemy row of table `countries`).
`last_refreshed_at` is the `datetime.now(timezone.utc)` written at
insert/update time. -/
structure StoredCountry where
  name : Str
  capital : Option Str
  region : Option Str
  population : Int
  currency_code : Option Str
  exchange_rate : Option Int
  estimated_gdp : Option Int
  flag_url : Option Str
  last_refreshed_at : Nat
deriving DecidableEq

/-- The persistent state the endpoints act on: the `countries` table (in
insertion order, which is the order an unsorted query returns), the
`last_refreshed_at` timestamp of the `country_db` singleton row if that row
exists (`CountryDBInstance`), and whether `cache/summary.png` exists. -/
structure Store where
  countries : List StoredCountry
  batch : Option Nat
  imageExists : Bool
deriving DecidableEq

/-- Embeds the update branch of the upsert loop in `src/main.py`
`fetch_countries` (lines 265-273): every mutable field of the matched row is
overwritten from the fetched item and `last_refreshed_at` is set to now.
Note the stored `name` is left as it was (the source never reassigns it). -/
def updateFromRow (c : StoredCountry) (row : CountryRow) (now : Nat) : StoredCountry :=
  { c with
    capital := row.capital
    region := row.region
    population := row.population
    currency_code := row.currency_code
    exchange_rate := row.exchange_rate
    estimated_gdp := row.estimated_gdp
    flag_url := row.flag_url
    last_refreshed_at := now }

/-- Embeds the insert branch of the upsert loop in `src/main.py`
`fetch_countries` (lines 274-288): a new `Country` row built from the item. -/
def insertFromRow (row : CountryRow) (now : Nat) : StoredCountry :=
  { name := row.name
    capital := row.capital
    region := row.region
    population := row.population
    currency_code := row.currency_code
    exchange_rate := row.exchange_rate
    estimated_gdp := row.estimated_gdp
    flag_url := row.flag_url
    last_refreshed_at := now }

/-- One iteration of the upsert loop in `src/main.py` `fetch_countries`
(lines 251-288): look up the first stored row whose lowercased name equals
the item's lowercased name (`func.lower(Country.name) == item["name"].lower()`,
`.first()`); update it in place if found, else append a new row. -/
def upsertOne (now : Nat) (row : CountryRow) : List StoredCountry → List StoredCountry
  | [] => [insertFromRow row now]
  | c :: cs =>
    if lowerStr c.name = lowerStr row.name then updateFromRow c row now :: cs
    else c :: upsertOne now row cs

/-- The whole upsert loop of `src/main.py` `fetch_countries`: items are
processed in order, each seeing the rows written by the previous iterations
(the SQLAlchemy session autoflushes pending inserts before each query). -/
def upsertAll (now : Nat) (rows : List CountryRow) (cs : List StoredCountry) :
    List StoredCountry :=
  rows.foldl (fun acc row => upsertOne now row acc) cs

/-- Embeds `src/main.py` `fetch_countries` (`POST /countries/refresh`,
lines 228-309), with the two upstream HTTP exchanges abstracted into the
`result`/`rates` payload of the Exchange Rate API and the already-parsed
`data` list from the Country API.  Returns the store state after the request
together with the request outcome.

* `extract_rate` raising propagates out of the handler before the database
  session is even opened, so the store is unchanged on that path.
* `if not response: raise ExternalServiceUnavailable(...)`: the name
  `ExternalServiceUnavailable` is imported from `core.exceptions`, which
  does not define it, so this line (and in fact the import of `main.py`
  itself) can only produce a Python name-resolution error, modelled as
  `PyError.nameError`.
* Otherwise: get-or-create the `CountryDBInstance` row, run the upsert loop,
  set the batch timestamp to now, commit, and regenerate
  `cache/summary.png` (`create_image`), so the image exists afterwards. -/
def fetch_countries (st : Store) (result : Str) (rates : Str → Option Int)
    (data : List CountryItem) (mult : Nat → Int) (now : Nat) :
    Store × Except PyError (List CountryRow) :=
  match extract_rate result rates data mult with
  | .error e => (st, .error e)
  | .ok response =>
    if response.isEmpty then
      (st, .error (.nameError ("ExternalServiceUnavailable".data)))
    else
      ({ countries := upsertAll now response st.countries
         batch := some now
         imageExists := true }, .ok response)

/-- Embeds `src/main.py` `clear_countries` (`DELETE /countries/clear`,
lines 184-216): delete every `Country` row, set the `CountryDBInstance`
timestamp to now if that row exists, remove `cache/summary.png` if it
exists, and answer with the number of deleted rows. -/
def clear_countries (st : Store) (now : Nat) : Store × Nat :=
  (⟨[], st.batch.map (fun _ => now), false⟩, st.countries.length)

/-- Outcome of `GET /countries/image`.  `returnedException` models the source
line `return NotFoundException("Summary image not found")`: the handler
returns the exception object as its response value instead of raising it, so
FastAPI serializes the object as a normal (HTTP 200) response body and the
`AppException` handler of `core/error_handlers.py` never runs. -/
inductive ImageResult where
  | fileResponse (path : Str)
  | returnedException (e : AppException)
  | raisedException (e : AppException)
deriving DecidableEq

/-- Embeds `src/main.py` `get_image` (`GET /countries/image`, lines 219-225). -/
def get_image (st : Store) : ImageResult :=
  if st.imageExists then .fileResponse ("cache/summary.png".data)
  else .returnedException (notFoundException ("Summary image not found".data))

/-- HTTP status of an `ImageResult`: a `FileResponse` is served with 200; a
value returned normally from the handler is serialized with the default
status 200; only a raised `AppException` reaches the error handler that
answers with the exception's own status code. -/
def imageHttpStatus : ImageResult → Nat
  | .fileResponse _ => 200
  | .returnedException _ => 200
  | .raisedException e => e.status_code

/-- The ways the outbound request of `services/http_client.py`
`safe_http_request` can fail: a network error or an expired timeout (both
`httpx.RequestError`) or a non-2xx response (`response.raise_for_status()`
raising `httpx.HTTPStatusError`). -/
inductive UpstreamFailure where
  | networkError
  | timeoutExpired
  | non2xx (status : Nat)
deriving DecidableEq

/-- Embeds `services/http_client.py` `safe_http_request` (lines 7-36) with
the network exchange abstracted into its outcome: on success the parsed JSON
body is returned; `httpx.RequestError` (network error, timeout) and
`httpx.HTTPStatusError` (non-2xx) are both re-raised as
`ExternalServiceException` (status 502). -/
def safe_http_request {α : Type} (outcome : Except UpstreamFailure α) :
    Except AppException α :=
  match outcome with
  | .ok body => .ok body
  | .error .networkError => .error (externalServiceException ("Network error".data))
  | .error .timeoutExpired => .error (externalServiceException ("Network error".data))
  | .error (.non2xx _) =>
    .error (externalServiceException ("External service responded with a non-2xx status".data))

/-- The timeout both `services/country_data.py` `fetch_all_countries` and
`services/country_exchange_rate.py` `extract_rate` pass to
`safe_http_request` is `timeout=3000`; `safe_http_request` forwards it as
`httpx.Timeout(timeout)`, and httpx timeout values are measured in seconds.
So the outbound requests of a refresh time out after 3000 seconds. -/
def refreshRequestTimeoutSeconds : Nat := 3000

/-- The sort key of `src/main.py` `get_all_countries` and `create_image`:
`lambda c: c.estimated_gdp or 0`.  Python `or` yields the right operand when
the left is falsy, and both `None` and `0` are falsy, so `None` maps to `0`
and numbers map to themselves. -/
def gdpKey (c : StoredCountry) : Int :=
  match c.estimated_gdp with
  | none => 0
  | some g => if g = 0 then 0 else g

/-- Stable insertion (by a key, largest first) used to model Python's
`sorted`: the new element is placed after every already-placed element whose
key is greater than or equal to its own.  Python's `sorted` is stable (also
with `reverse=True`), and a stable sort's output is uniquely determined by
the key and the input order, so any stable sorting algorithm is a faithful
model of it. -/
def insertByKey (key : StoredCountry → Int) (x : StoredCountry) :
    List StoredCountry → List StoredCountry
  | [] => [x]
  | y :: ys => if key y < key x then x :: y :: ys else y :: insertByKey key x ys

/-- Stable sort, largest key first. -/
def sortByKeyDesc (key : StoredCountry → Int) (l : List StoredCountry) :
    List StoredCountry :=
  l.foldl (fun acc x => insertByKey key x acc) []

/-- Embeds `sorted(countries, key=lambda c: c.estimated_gdp or 0, reverse=True)`. -/
def sortGdpDesc (l : List StoredCountry) : List StoredCountry :=
  sortByKeyDesc gdpKey l

/-- Embeds `sorted(countries, key=lambda c: c.estimated_gdp or 0, reverse=False)`:
ascending stable sort, realized as the descending stable sort on the negated
key (which places smallest `gdpKey` first and keeps equal-key elements in
input order, exactly as Python's stable ascending `sorted` does). -/
def sortGdpAsc (l : List StoredCountry) : List StoredCountry :=
  sortByKeyDesc (fun c => -gdpKey c) l

/-- SQL `LIKE` pattern matching as evaluated by the database for
SQLAlchemy's `ilike` filters: `_` matches exactly one character, the
wildcard written here as `pct` (the percent character) matches any sequence
of characters, and any other pattern character matches only itself. -/
def likeMatch : Str → Str → Bool
  | [], t => t.isEmpty
  | a :: p, t =>
    if a = '%' then
      t.tails.any (fun v => likeMatch p v)
    else
      match t with
      | [] => false
      | c :: t2 => if a = '_' then likeMatch p t2 else a = c && likeMatch p t2

/-- A nullable column filtered through `ilike`: SQL `NULL LIKE pattern`
evaluates to `NULL`, which is not true, so rows with a `NULL` column are
excluded; otherwise the comparison is case-insensitive
(`lower(column) LIKE lower(pattern)`). -/
def ilikeColumn (col : Option Str) (pattern : Str) : Bool :=
  match col with
  | none => false
  | some s => likeMatch (lowerStr pattern) (lowerStr s)

/-- Python truthiness of an `Optional[str]` query parameter: `None` and the
empty string are falsy.  Used by `if currency:` / `if region:`. -/
def pyTruthyStr : Option Str → Bool
  | none => false
  | some s => !s.isEmpty

/-- The query part of `src/main.py` `get_all_countries` (lines 149-156):
start from all rows, and filter with
`Country.currency_code.ilike(f"%\x7bcurrency\x7d%")` and/or
`Country.region.ilike(f"%\x7bregion\x7d%")` when the respective parameter is
truthy.  The f-string wraps the raw parameter between two percent
wildcards. -/
def filteredCountries (st : Store) (currency region : Option Str) :
    List StoredCountry :=
  let q1 :=
    if pyTruthyStr currency then
      st.countries.filter (fun c => ilikeColumn c.currency_code ('%' :: currency.getD [] ++ ['%']))
    else st.countries
  if pyTruthyStr region then
    q1.filter (fun c => ilikeColumn c.region ('%' :: region.getD [] ++ ['%']))
  else q1

/-- Embeds `src/main.py` `get_all_countries` (`GET /countries`,
lines 140-181): filter, raise `NotFoundException("Country not found")` when
no row is left, then sort only when the `sort` parameter is exactly
`"gbd_desc"` or exactly `"gdb_incr"`. -/
def get_all_countries (st : Store) (currency sortv region : Option Str) :
    Except AppException (List StoredCountry) :=
  if (filteredCountries st currency region).isEmpty then
    .error (notFoundException ("Country not found".data))
  else if sortv = some ("gbd_desc".data) then
    .ok (sortGdpDesc (filteredCountries st currency region))
  else if sortv = some ("gdb_incr".data) then
    .ok (sortGdpAsc (filteredCountries st currency region))
  else .ok (filteredCountries st currency region)

/-- A appears before B in the list `l` (at strictly smaller index). -/
def appearsBefore (l : List StoredCountry) (a b : StoredCountry) : Prop :=
  ∃ i j : Nat, i < j ∧ l.get? i = some a ∧ l.get? j = some b

/-- First record of the C5 tie counterexample: `estimated_gdp = 5`. -/
def c5RecA : StoredCountry := ⟨"Aaa".data, none, none, 1, none, none, some 5, none, 0⟩

/-- Second record of the C5 tie counterexample: also `estimated_gdp = 5`. -/
def c5RecB : StoredCountry := ⟨"Bbb".data, none, none, 1, none, none, some 5, none, 0⟩

/-- Lowercased names of the stored rows, in store order — the quantity the
case-insensitive uniqueness invariant speaks about. -/
def namesOf (cs : List StoredCountry) : List Str :=
  cs.map (fun c => lowerStr c.name)

/-- The filter string contains neither SQL LIKE wildcard: no percent
character and no underscore. -/
def noWildcards (s : Str) : Prop := ∀ c ∈ s, c ≠ '%' ∧ c ≠ '_'

instance (s : Str) : Decidable (noWildcards s) :=
  List.decidableBAll (fun c => c ≠ '%' ∧ c ≠ '_') s

/-- The needle occurs as a contiguous substring of the hay. -/
def substrOf (needle hay : Str) : Prop := ∃ u w : Str, hay = u ++ needle ++ w

/-- C1: when the exchange-rate source reports a non-success result payload
(here `result = "error"`), the refresh handler fails and the store is
unchanged (no country rows written, batch timestamp untouched) — but the
failure is an unhandled `TypeError` raised by the doubled-brace set literal
in `extract_rate` (answered as HTTP 500 by the generic handler), not a
raised application exception: no branch of the code can produce the
`ExternalServiceUnavailable` the spec names, and `core.exceptions` does not
even define that class although `src/main.py` imports it. -/
theorem C1_rate_error_refresh (st : Store) (rates : Str → Option Int)
    (data : List CountryItem) (mult : Nat → Int) (now : Nat) :
    fetch_countries st ("error".data) rates data mult now
      = (st, .error (.typeError ("unhashable type: dict".data)))
    ∧ ∀ e : AppException,
        (fetch_countries st ("error".data) rates data mult now).2 ≠ .error (.app e) := by
  have hne : ("error".data : Str) ≠ "success".data := by decide
  have h : extract_rate ("error".data) rates data mult
      = .error (.typeError ("unhashable type: dict".data)) := by
    unfold extract_rate
    rw [if_pos hne]
  refine ⟨?_, ?_⟩
  · unfold fetch_countries
    rw [h]
  · intro e
    unfold fetch_countries
    rw [h]
    simp

/-- C2 counterexample: a fetched country whose currency code is empty but
whose currency symbol is non-empty gets `estimated_gdp = None`, not the `0`
the claim requires for every country with an absent/empty currency code. -/
theorem C2_empty_code_gdp_not_zero :
    (Currency.mk [] [] ("T".data)).code = []
    ∧ (deriveRow (fun _ => none) 1500
        ⟨"Testland".data, none, none, 5, ⟨[], [], "T".data⟩, none, []⟩).estimated_gdp
      = none
    ∧ (deriveRow (fun _ => none) 1500
        ⟨"Testland".data, none, none, 5, ⟨[], [], "T".data⟩, none, []⟩).estimated_gdp
      ≠ some 0 := by
  refine ⟨rfl, rfl, ?_⟩
  decide

/-- C2 (amended): for every fetched country, `estimated_gdp` is derived as
follows — if the currency code is non-empty and the rate mapping resolves it
to a nonzero rate, `estimated_gdp = population * m * rate` where `m` is the
multiplier drawn from `[1000, 2000]`; in every other case (currency code
absent/empty, rate unresolved, or rate resolved to exactly 0) it is `0` when
the currency symbol is the empty string and `null` otherwise. -/
theorem C2_estimated_gdp_rules (rates : Str → Option Int) (m : Int)
    (item : CountryItem) (hm : 1000 ≤ m ∧ m ≤ 2000) :
    (∀ r : Int, item.currencies.code ≠ [] → rates item.currencies.code = some r →
        r ≠ 0 →
        (deriveRow rates m item).estimated_gdp = some (item.population * m * r))
    ∧ (item.currencies.code = [] →
        (deriveRow rates m item).estimated_gdp
          = (if item.currencies.symbol = [] then some 0 else none))
    ∧ (item.currencies.code ≠ [] →
        (rates item.currencies.code = none ∨ rates item.currencies.code = some 0) →
        (deriveRow rates m item).estimated_gdp
          = (if item.currencies.symbol = [] then some 0 else none)) := by
  clear hm
  refine ⟨?_, ?_, ?_⟩
  · intro r hcode hr hr0
    simp only [deriveRow, if_pos hcode, hr]
    have ht : pyTruthyRate (some r) = true := by
      simp [pyTruthyRate, hr0]
    simp [hcode, ht]
  · intro hcode
    simp [deriveRow, hcode]
  · intro hcode hrate
    rcases hrate with hrate | hrate <;>
      simp [deriveRow, if_pos hcode, hrate, pyTruthyRate]

/-- Witness for C2: with rate mapping `TST → 2` and multiplier 1500, a
country with population 1000 and currency code `TST` gets
`estimated_gdp = 1000 * 1500 * 2`. -/
theorem C2_estimated_gdp_rules_witness :
    ((1000 : Int) ≤ 1500 ∧ (1500 : Int) ≤ 2000)
    ∧ (deriveRow (fun c => if c = ("TST".data) then some 2 else none) 1500
        ⟨"Testland".data, none, none, 1000, ⟨"TST".data, [], "T".data⟩, none, []⟩).estimated_gdp
      = some (1000 * 1500 * 2) :=
  ⟨⟨by norm_num, by norm_num⟩,
    (C2_estimated_gdp_rules (fun c => if c = ("TST".data) then some 2 else none) 1500
        ⟨"Testland".data, none, none, 1000, ⟨"TST".data, [], "T".data⟩, none, []⟩
        ⟨by norm_num, by norm_num⟩).1 2 (by decide) (by decide) (by decide)⟩

/-- C6: after `clear_countries`, the store holds no country rows (count 0),
the cached summary image no longer exists, the batch timestamp — when a
batch row exists — is reset to the clearing time, and the response reports
how many rows were removed. -/
theorem C6_clear_all (st : Store) (now : Nat) :
    (clear_countries st now).1.countries = []
    ∧ (clear_countries st now).1.countries.length = 0
    ∧ (clear_countries st now).1.imageExists = false
    ∧ (clear_countries st now).1.batch = st.batch.map (fun _ => now)
    ∧ (clear_countries st now).2 = st.countries.length := by
  simp [clear_countries]

/-- C7: when the summary artifact exists, `GET /countries/image` serves the
cached PNG; when it does not, the handler returns the `NotFoundException`
object instead of raising it, so the response is serialized with HTTP
status 200 — the 404 error envelope the claim requires is never produced
because no branch raises. -/
theorem C7_image_endpoint (st : Store) :
    (st.imageExists = true → get_image st = .fileResponse ("cache/summary.png".data))
    ∧ (st.imageExists = false →
        get_image st = .returnedException (notFoundException ("Summary image not found".data))
        ∧ imageHttpStatus (get_image st) = 200
        ∧ ∀ e, get_image st ≠ .raisedException e) := by
  refine ⟨fun h => ?_, fun h => ?_⟩
  · simp [get_image, h]
  · refine ⟨by simp [get_image, h], by simp [get_image, h, imageHttpStatus], ?_⟩
    intro e
    simp [get_image, h]

/-- Witness for C7: on a store without the image the endpoint answers with
status 200 (and with the file when the image exists). -/
theorem C7_image_endpoint_witness :
    ((Store.mk [] none false).imageExists = false
      ∧ imageHttpStatus (get_image (Store.mk [] none false)) = 200)
    ∧ ((Store.mk [] none true).imageExists = true
      ∧ get_image (Store.mk [] none true) = .fileResponse ("cache/summary.png".data)) :=
  ⟨⟨rfl, ((C7_image_endpoint (Store.mk [] none false)).2 rfl).2.1⟩,
    ⟨rfl, (C7_image_endpoint (Store.mk [] none true)).1 rfl⟩⟩

/-- C8: the outbound call fails with the 502 `ExternalServiceException` on a
network error, a timeout, and a non-2xx response — but the fixed timeout
both refresh calls use is 3000 seconds (the value `3000` is handed to
`httpx.Timeout`, whose unit is seconds), not approximately 3 seconds. -/
theorem C8_http_failure_modes :
    (∀ (α : Type) (f : UpstreamFailure),
        ∃ msg, @safe_http_request α (.error f) = .error ⟨msg, 502⟩)
    ∧ refreshRequestTimeoutSeconds = 3000
    ∧ ¬ refreshRequestTimeoutSeconds ≤ 30 := by
  refine ⟨?_, rfl, by decide⟩
  intro α f
  cases f <;> exact ⟨_, rfl⟩

/-- C10: when a country's currency code is non-empty but its looked-up
exchange rate is exactly 0, the derivation does not produce the product
`population * multiplier * 0`; the zero rate is falsy in the guarding
condition, so the fallback branch decides on the currency symbol: `0` when
the symbol is the empty string, `null` otherwise. -/
theorem C10_zero_rate_fallback (rates : Str → Option Int) (m : Int)
    (item : CountryItem) (hcode : item.currencies.code ≠ [])
    (hrate : rates item.currencies.code = some 0) :
    (deriveRow rates m item).exchange_rate = some 0
    ∧ (deriveRow rates m item).estimated_gdp
      = (if item.currencies.symbol = [] then some 0 else none) := by
  constructor
  · simp [deriveRow, if_pos hcode, hrate]
  · simp [deriveRow, if_pos hcode, hrate, pyTruthyRate]

/-- Witness for C10: a country with currency code `XAU`, currency symbol `T`
and rate resolved to 0 gets `estimated_gdp = null`, not `0`. -/
theorem C10_zero_rate_fallback_witness :
    (Currency.mk ("XAU".data) [] ("T".data)).code ≠ []
    ∧ (fun c => if c = ("XAU".data) then some (0 : Int) else none) ("XAU".data) = some 0
    ∧ (deriveRow (fun c => if c = ("XAU".data) then some (0 : Int) else none) 1999
        ⟨"Goldland".data, none, none, 7, ⟨"XAU".data, [], "T".data⟩, none, []⟩).estimated_gdp
      = none := by
  refine ⟨by decide, by decide, ?_⟩
  have h := (C10_zero_rate_fallback (fun c => if c = ("XAU".data) then some (0 : Int) else none)
      1999 ⟨"Goldland".data, none, none, 7, ⟨"XAU".data, [], "T".data⟩, none, []⟩
      (by decide) (by decide)).2
  simpa using h

theorem mem_insertByKey (key : StoredCountry → Int) (x z : StoredCountry)
    (l : List StoredCountry) :
    z ∈ insertByKey key x l ↔ z = x ∨ z ∈ l := by
  induction l with
  | nil => simp [insertByKey]
  | cons y ys ih =>
    simp only [insertByKey]
    split
    · simp only [List.mem_cons]
    · simp only [List.mem_cons, ih]
      tauto

theorem pairwise_insertByKey (key : StoredCountry → Int) (x : StoredCountry)
    (l : List StoredCountry) (h : l.Pairwise (fun a b => key b ≤ key a)) :
    (insertByKey key x l).Pairwise (fun a b => key b ≤ key a) := by
  induction l with
  | nil => simp [insertByKey]
  | cons y ys ih =>
    rw [List.pairwise_cons] at h
    obtain ⟨hy, hys⟩ := h
    simp only [insertByKey]
    split
    · next hlt =>
      rw [List.pairwise_cons]
      refine ⟨?_, List.pairwise_cons.mpr ⟨hy, hys⟩⟩
      intro z hz
      rcases List.mem_cons.mp hz with rfl | hz
      · exact le_of_lt hlt
      · exact le_trans (hy z hz) (le_of_lt hlt)
    · next hge =>
      rw [List.pairwise_cons]
      refine ⟨?_, ih hys⟩
      intro z hz
      rcases (mem_insertByKey key x z ys).mp hz with rfl | hz
      · exact not_lt.mp hge
      · exact hy z hz

theorem pairwise_foldl_insertByKey (key : StoredCountry → Int)
    (l acc : List StoredCountry) (h : acc.Pairwise (fun a b => key b ≤ key a)) :
    (l.foldl (fun a x => insertByKey key x a) acc).Pairwise
      (fun a b => key b ≤ key a) := by
  induction l generalizing acc with
  | nil => simpa using h
  | cons x xs ih => exact ih _ (pairwise_insertByKey key x acc h)

theorem pairwise_sortByKeyDesc (key : StoredCountry → Int) (l : List StoredCountry) :
    (sortByKeyDesc key l).Pairwise (fun a b => key b ≤ key a) :=
  pairwise_foldl_insertByKey key l [] (by simp)

theorem mem_foldl_insertByKey (key : StoredCountry → Int) (z : StoredCountry)
    (l acc : List StoredCountry) :
    z ∈ l.foldl (fun a x => insertByKey key x a) acc ↔ z ∈ acc ∨ z ∈ l := by
  induction l generalizing acc with
  | nil => simp
  | cons x xs ih =>
    simp only [List.foldl_cons, ih, mem_insertByKey, List.mem_cons]
    tauto

theorem mem_sortByKeyDesc (key : StoredCountry → Int) (z : StoredCountry)
    (l : List StoredCountry) :
    z ∈ sortByKeyDesc key l ↔ z ∈ l := by
  rw [sortByKeyDesc, mem_foldl_insertByKey]
  simp

theorem filter_insertByKey (key : StoredCountry → Int) (k : Int) (x : StoredCountry)
    (l : List StoredCountry) (h : l.Pairwise (fun a b => key b ≤ key a)) :
    (insertByKey key x l).filter (fun c => key c == k)
      = (if key x = k then l.filter (fun c => key c == k) ++ [x]
         else l.filter (fun c => key c == k)) := by
  induction l with
  | nil =>
    simp only [insertByKey, List.filter]
    split <;> rename_i hx
    · rw [if_pos (by exact beq_iff_eq.mp hx)]
      rfl
    · rw [if_neg (by simpa using hx)]
  | cons y ys ih =>
    rw [List.pairwise_cons] at h
    obtain ⟨hy, hys⟩ := h
    simp only [insertByKey]
    split
    · next hlt =>
      by_cases hx : key x = k
      · rw [if_pos hx]
        have hnil : (y :: ys).filter (fun c => key c == k) = [] := by
          rw [List.filter_eq_nil_iff]
          intro z hz
          rcases List.mem_cons.mp hz with rfl | hz
          · simp only [beq_iff_eq]
            omega
          · have := hy z hz
            simp only [beq_iff_eq]
            omega
        rw [hnil, List.nil_append, List.filter_cons_of_pos (by simpa using hx), hnil]
      · rw [if_neg hx, List.filter_cons_of_neg (by simpa using hx)]
    · next hge =>
      rw [List.filter_cons]
      by_cases hyk : key y = k
      · rw [if_pos (by simpa using hyk), ih hys, List.filter_cons_of_pos (by simpa using hyk)]
        by_cases hx : key x = k
        · rw [if_pos hx, if_pos hx, List.cons_append]
        · rw [if_neg hx, if_neg hx]
      · rw [if_neg (by simpa using hyk), ih hys, List.filter_cons_of_neg (by simpa using hyk)]

theorem filter_foldl_insertByKey (key : StoredCountry → Int) (k : Int)
    (l acc : List StoredCountry) (h : acc.Pairwise (fun a b => key b ≤ key a)) :
    (l.foldl (fun a x => insertByKey key x a) acc).filter (fun c => key c == k)
      = acc.filter (fun c => key c == k) ++ l.filter (fun c => key c == k) := by
  induction l generalizing acc with
  | nil => simp
  | cons x xs ih =>
    rw [List.foldl_cons, ih _ (pairwise_insertByKey key x acc h),
      filter_insertByKey key k x acc h, List.filter_cons]
    by_cases hx : key x = k
    · rw [if_pos hx, if_pos (by simpa using hx), List.append_assoc, List.singleton_append]
    · rw [if_neg hx, if_neg (by simpa using hx)]

theorem filter_sortByKeyDesc (key : StoredCountry → Int) (k : Int)
    (l : List StoredCountry) :
    (sortByKeyDesc key l).filter (fun c => key c == k)
      = l.filter (fun c => key c == k) := by
  have h := filter_foldl_insertByKey key k l [] (by simp)
  simpa [sortByKeyDesc] using h

/-- C9: for `GET /countries`, sorting is triggered only by the exact,
case-sensitive `sort` values `"gbd_desc"` (descending) and `"gdb_incr"`
(ascending); every other value — including `"gdp_desc"` or `"GBD_DESC"` —
leaves the filtered records in store order. -/
theorem C9_sort_flag_exact_strings :
    (∀ (st : Store) (cf rf : Option Str) (sortv : Option Str),
        sortv ≠ some ("gbd_desc".data) → sortv ≠ some ("gdb_incr".data) →
        get_all_countries st cf sortv rf
          = (if (filteredCountries st cf rf).isEmpty
              then .error (notFoundException ("Country not found".data))
              else .ok (filteredCountries st cf rf)))
    ∧ (∀ (st : Store) (cf rf : Option Str),
        get_all_countries st cf (some ("gbd_desc".data)) rf
          = (if (filteredCountries st cf rf).isEmpty
              then .error (notFoundException ("Country not found".data))
              else .ok (sortGdpDesc (filteredCountries st cf rf))))
    ∧ (∀ (st : Store) (cf rf : Option Str),
        get_all_countries st cf (some ("gdb_incr".data)) rf
          = (if (filteredCountries st cf rf).isEmpty
              then .error (notFoundException ("Country not found".data))
              else .ok (sortGdpAsc (filteredCountries st cf rf)))) := by
  refine ⟨?_, ?_, ?_⟩
  · intro st cf rf sortv h1 h2
    unfold get_all_countries
    rw [if_neg h1, if_neg h2]
  · intro st cf rf
    unfold get_all_countries
    rw [if_pos (show (some ("gbd_desc".data) : Option Str) = some ("gbd_desc".data) from rfl)]
  · intro st cf rf
    unfold get_all_countries
    rw [if_neg (show ¬ (some ("gdb_incr".data) : Option Str) = some ("gbd_desc".data) by decide),
      if_pos (show (some ("gdb_incr".data) : Option Str) = some ("gdb_incr".data) from rfl)]

/-- Witness for C9: with the natural-spelling value `"GBD_DESC"` the result
keeps store order — a store whose rows are in ascending-GDP order is
returned unsorted. -/
theorem C9_sort_flag_exact_strings_witness :
    get_all_countries
        ⟨[⟨"Aaa".data, none, none, 1, none, none, some 1, none, 0⟩,
          ⟨"Bbb".data, none, none, 1, none, none, some 9, none, 0⟩], none, false⟩
        none (some ("GBD_DESC".data)) none
      = .ok [⟨"Aaa".data, none, none, 1, none, none, some 1, none, 0⟩,
             ⟨"Bbb".data, none, none, 1, none, none, some 9, none, 0⟩] :=
  (C9_sort_flag_exact_strings.1
      ⟨[⟨"Aaa".data, none, none, 1, none, none, some 1, none, 0⟩,
        ⟨"Bbb".data, none, none, 1, none, none, some 9, none, 0⟩], none, false⟩
      none none (some ("GBD_DESC".data)) (by decide) (by decide)).trans (by decide)

/-- C5 counterexample: with two stored records of equal `estimated_gdp`, the
descending result is `[c5RecA, c5RecB]` (stable, store order kept); taking
`A := c5RecB` and `B := c5RecA` we have `A.estimated_gdp ≥ B.estimated_gdp`
(both 5), yet `A` does not appear before `B` — so "A appears before B
whenever A.estimated_gdp ≥ B.estimated_gdp" fails on ties. -/
theorem C5_ge_ordering_tie_counterexample :
    get_all_countries ⟨[c5RecA, c5RecB], none, false⟩ none
        (some ("gbd_desc".data)) none
      = .ok [c5RecA, c5RecB]
    ∧ gdpKey c5RecA ≤ gdpKey c5RecB
    ∧ ¬ appearsBefore [c5RecA, c5RecB] c5RecB c5RecA := by
  refine ⟨by decide, by decide, ?_⟩
  rintro ⟨i, j, hij, hi, hj⟩
  match i, hi with
  | 0, hi =>
    have hAB : c5RecA = c5RecB := by
      simpa using hi
    exact absurd hAB (by decide)
  | 1, hi =>
    match j, hj with
    | 0, hj => omega
    | 1, hj => omega
    | (n + 2), hj => simp at hj
  | (n + 2), hi => simp at hi

/-- C5 (amended): under the descending flag the result is pairwise sorted so
that whenever A appears before B, A's `estimated_gdp` (null treated as 0) is
greater than or equal to B's; the ascending flag gives the reverse order;
both sorts are stable (every class of records sharing a key value keeps its
store order); and any unrecognized sort value leaves the filtered store
order unchanged. -/
theorem C5_gdp_sorting (st : Store) (cf rf : Option Str)
    (res : List StoredCountry) :
    (get_all_countries st cf (some ("gbd_desc".data)) rf = .ok res →
        res.Pairwise (fun a b => gdpKey b ≤ gdpKey a)
        ∧ ∀ k : Int, res.filter (fun c => gdpKey c == k)
            = (filteredCountries st cf rf).filter (fun c => gdpKey c == k))
    ∧ (get_all_countries st cf (some ("gdb_incr".data)) rf = .ok res →
        res.Pairwise (fun a b => gdpKey a ≤ gdpKey b)
        ∧ ∀ k : Int, res.filter (fun c => gdpKey c == k)
            = (filteredCountries st cf rf).filter (fun c => gdpKey c == k))
    ∧ (∀ sortv : Option Str, sortv ≠ some ("gbd_desc".data) →
        sortv ≠ some ("gdb_incr".data) →
        get_all_countries st cf sortv rf = .ok res →
        res = filteredCountries st cf rf) := by
  refine ⟨?_, ?_, ?_⟩
  · intro h
    unfold get_all_countries at h
    by_cases hE : (filteredCountries st cf rf).isEmpty
    · rw [if_pos hE] at h
      exact Except.noConfusion h
    · rw [if_neg hE,
        if_pos (show (some ("gbd_desc".data) : Option Str) = some ("gbd_desc".data) from rfl)] at h
      have hres : sortGdpDesc (filteredCountries st cf rf) = res := by
        simpa using h
      subst hres
      exact ⟨pairwise_sortByKeyDesc gdpKey _, fun k => filter_sortByKeyDesc gdpKey k _⟩
  · intro h
    unfold get_all_countries at h
    by_cases hE : (filteredCountries st cf rf).isEmpty
    · rw [if_pos hE] at h
      exact Except.noConfusion h
    · rw [if_neg hE,
        if_neg (show ¬ (some ("gdb_incr".data) : Option Str) = some ("gbd_desc".data) by decide),
        if_pos (show (some ("gdb_incr".data) : Option Str) = some ("gdb_incr".data) from rfl)] at h
      have hres : sortGdpAsc (filteredCountries st cf rf) = res := by
        simpa using h
      subst hres
      constructor
      · have hp := pairwise_sortByKeyDesc (fun c => -gdpKey c) (filteredCountries st cf rf)
        exact hp.imp (fun hab => by omega)
      · intro k
        have hpred : ∀ c : StoredCountry, ((-gdpKey c == -k) = (gdpKey c == k)) := by
          intro c
          by_cases hc : gdpKey c = k
          · simp [hc]
          · have hnc : ¬ (-gdpKey c = -k) := by omega
            simp [hc, hnc]
        calc (sortGdpAsc (filteredCountries st cf rf)).filter (fun c => gdpKey c == k)
            = (sortGdpAsc (filteredCountries st cf rf)).filter (fun c => -gdpKey c == -k) := by
              apply List.filter_congr
              intro c _
              exact (hpred c).symm
          _ = (filteredCountries st cf rf).filter (fun c => -gdpKey c == -k) :=
              filter_sortByKeyDesc (fun c => -gdpKey c) (-k) (filteredCountries st cf rf)
          _ = (filteredCountries st cf rf).filter (fun c => gdpKey c == k) := by
              apply List.filter_congr
              intro c _
              exact hpred c
  · intro sortv h1 h2 h
    unfold get_all_countries at h
    by_cases hE : (filteredCountries st cf rf).isEmpty
    · rw [if_pos hE] at h
      exact Except.noConfusion h
    · rw [if_neg hE, if_neg h1, if_neg h2] at h
      have hres := h
      simp only [Except.ok.injEq] at hres
      exact hres.symm

/-- Witness for C5: on a two-record store with distinct GDP values the
descending result is sorted pairwise. -/
theorem C5_gdp_sorting_witness :
    get_all_countries
        ⟨[⟨"Aaa".data, none, none, 1, none, none, some 1, none, 0⟩,
          ⟨"Bbb".data, none, none, 1, none, none, some 9, none, 0⟩], none, false⟩
        none (some ("gbd_desc".data)) none
      = .ok [⟨"Bbb".data, none, none, 1, none, none, some 9, none, 0⟩,
             ⟨"Aaa".data, none, none, 1, none, none, some 1, none, 0⟩]
    ∧ ([⟨"Bbb".data, none, none, 1, none, none, some 9, none, 0⟩,
        ⟨"Aaa".data, none, none, 1, none, none, some 1, none, 0⟩] :
          List StoredCountry).Pairwise (fun a b => gdpKey b ≤ gdpKey a) :=
  ⟨by decide,
    ((C5_gdp_sorting
        ⟨[⟨"Aaa".data, none, none, 1, none, none, some 1, none, 0⟩,
          ⟨"Bbb".data, none, none, 1, none, none, some 9, none, 0⟩], none, false⟩
        none none
        [⟨"Bbb".data, none, none, 1, none, none, some 9, none, 0⟩,
         ⟨"Aaa".data, none, none, 1, none, none, some 1, none, 0⟩]).1 (by decide)).1⟩

theorem namesOf_upsertOne (now : Nat) (row : CountryRow) (cs : List StoredCountry) :
    namesOf (upsertOne now row cs)
      = (if lowerStr row.name ∈ namesOf cs then namesOf cs
         else namesOf cs ++ [lowerStr row.name]) := by
  induction cs with
  | nil => simp [upsertOne, namesOf, insertFromRow]
  | cons c cs ih =>
    simp only [upsertOne]
    by_cases h : lowerStr c.name = lowerStr row.name
    · rw [if_pos h]
      have hmem : lowerStr row.name ∈ namesOf (c :: cs) := by
        simp only [namesOf, List.map_cons, List.mem_cons]
        exact Or.inl h.symm
      rw [if_pos hmem]
      simp [namesOf, updateFromRow]
    · rw [if_neg h]
      simp only [namesOf, List.map_cons] at *
      rw [ih]
      by_cases hmem : lowerStr row.name ∈ List.map (fun c => lowerStr c.name) cs
      · rw [if_pos hmem, if_pos (List.mem_cons_of_mem _ hmem)]
      · rw [if_neg hmem, if_neg ?_, List.cons_append]
        simp only [List.mem_cons]
        push_neg
        exact ⟨fun hc => h hc.symm, hmem⟩

theorem nodup_upsertOne (now : Nat) (row : CountryRow) (cs : List StoredCountry)
    (h : (namesOf cs).Nodup) : (namesOf (upsertOne now row cs)).Nodup := by
  rw [namesOf_upsertOne]
  by_cases hmem : lowerStr row.name ∈ namesOf cs
  · rwa [if_pos hmem]
  · rw [if_neg hmem]
    rw [List.nodup_append]
    refine ⟨h, List.nodup_singleton _, ?_⟩
    intro a ha hb
    rw [List.mem_singleton] at hb
    subst hb
    exact hmem ha

theorem mem_namesOf_upsertOne (now : Nat) (row : CountryRow) (cs : List StoredCountry)
    (a : Str) (h : a ∈ namesOf cs) : a ∈ namesOf (upsertOne now row cs) := by
  rw [namesOf_upsertOne]
  by_cases hmem : lowerStr row.name ∈ namesOf cs
  · rwa [if_pos hmem]
  · rw [if_neg hmem]
    exact List.mem_append_left _ h

theorem self_mem_namesOf_upsertOne (now : Nat) (row : CountryRow)
    (cs : List StoredCountry) : lowerStr row.name ∈ namesOf (upsertOne now row cs) := by
  rw [namesOf_upsertOne]
  by_cases hmem : lowerStr row.name ∈ namesOf cs
  · rwa [if_pos hmem]
  · rw [if_neg hmem]
    exact List.mem_append_right _ (List.mem_singleton_self _)

theorem mem_namesOf_upsertAll (now : Nat) (rows : List CountryRow)
    (cs : List StoredCountry) (a : Str) (h : a ∈ namesOf cs) :
    a ∈ namesOf (upsertAll now rows cs) := by
  induction rows generalizing cs with
  | nil => simpa [upsertAll] using h
  | cons r rest ih =>
    have h1 := mem_namesOf_upsertOne now r cs a h
    simpa [upsertAll] using ih (upsertOne now r cs) h1

theorem row_mem_namesOf_upsertAll (now : Nat) (rows : List CountryRow)
    (cs : List StoredCountry) (row : CountryRow) (h : row ∈ rows) :
    lowerStr row.name ∈ namesOf (upsertAll now rows cs) := by
  induction rows generalizing cs with
  | nil => cases h
  | cons r rest ih =>
    rcases List.mem_cons.mp h with rfl | h
    · have h1 := self_mem_namesOf_upsertOne now row cs
      simpa [upsertAll] using mem_namesOf_upsertAll now rest (upsertOne now row cs) _ h1
    · simpa [upsertAll] using ih (upsertOne now r cs) h

theorem namesOf_upsertAll_of_mem (now : Nat) (rows : List CountryRow)
    (cs : List StoredCountry) (h : ∀ row ∈ rows, lowerStr row.name ∈ namesOf cs) :
    namesOf (upsertAll now rows cs) = namesOf cs := by
  induction rows generalizing cs with
  | nil => simp [upsertAll]
  | cons r rest ih =>
    have hr : lowerStr r.name ∈ namesOf cs := h r (List.mem_cons_self r rest)
    have h1 : namesOf (upsertOne now r cs) = namesOf cs := by
      rw [namesOf_upsertOne, if_pos hr]
    have h2 : ∀ row ∈ rest, lowerStr row.name ∈ namesOf (upsertOne now r cs) := by
      intro row hrow
      rw [h1]
      exact h row (List.mem_cons_of_mem _ hrow)
    calc namesOf (upsertAll now (r :: rest) cs)
        = namesOf (upsertAll now rest (upsertOne now r cs)) := by simp [upsertAll]
      _ = namesOf (upsertOne now r cs) := ih (upsertOne now r cs) h2
      _ = namesOf cs := h1

theorem nodup_upsertAll (now : Nat) (rows : List CountryRow)
    (cs : List StoredCountry) (h : (namesOf cs).Nodup) :
    (namesOf (upsertAll now rows cs)).Nodup := by
  induction rows generalizing cs with
  | nil => simpa [upsertAll] using h
  | cons r rest ih =>
    simpa [upsertAll] using ih (upsertOne now r cs) (nodup_upsertOne now r cs h)

theorem rowsFrom_names (rates : Str → Option Int) (mult : Nat → Int) (i : Nat)
    (data : List CountryItem) :
    (rowsFrom rates mult i data).map (fun r => lowerStr r.name)
      = data.map (fun item => lowerStr item.name) := by
  induction data generalizing i with
  | nil => simp [rowsFrom]
  | cons item rest ih =>
    simp only [rowsFrom, List.map_cons, ih]
    rfl

theorem rowsFrom_isEmpty (rates : Str → Option Int) (mult : Nat → Int) (i : Nat)
    (data : List CountryItem) :
    (rowsFrom rates mult i data).isEmpty = data.isEmpty := by
  cases data <;> simp [rowsFrom]

theorem fetch_countries_ok_inv (st : Store) (result : Str) (rates : Str → Option Int)
    (data : List CountryItem) (mult : Nat → Int) (now : Nat)
    (st' : Store) (resp : List CountryRow)
    (h : fetch_countries st result rates data mult now = (st', .ok resp)) :
    resp = rowsFrom rates mult 0 data
    ∧ resp.isEmpty = false
    ∧ st' = { countries := upsertAll now resp st.countries
              batch := some now
              imageExists := true } := by
  unfold fetch_countries extract_rate at h
  by_cases hr : result ≠ ("success".data)
  · rw [if_pos hr] at h
    have h2 := (Prod.ext_iff.mp h).2
    exact absurd h2 (by simp)
  · rw [if_neg hr] at h
    simp only [] at h
    by_cases hE : (rowsFrom rates mult 0 data).isEmpty
    · rw [if_pos hE] at h
      have h2 := (Prod.ext_iff.mp h).2
      exact absurd h2 (by simp)
    · rw [if_neg hE] at h
      obtain ⟨h1, h2⟩ := Prod.ext_iff.mp h
      have hresp : resp = rowsFrom rates mult 0 data := by
        simpa using h2.symm
      subst hresp
      exact ⟨rfl, by simpa using hE, h1.symm⟩

/-- C3: the case-insensitive name-uniqueness invariant is preserved by a
successful refresh, and a second refresh with the same upstream payload
(same country data, same rate payload; the random multipliers may differ)
updates rows in place: the multiset of lowercased names is unchanged and no
row is added, so no duplicate row is ever created for any name. -/
theorem C3_upsert_identity (st : Store) (result : Str) (rates : Str → Option Int)
    (data : List CountryItem) (mult mult2 : Nat → Int) (now now2 : Nat)
    (hnd : (namesOf st.countries).Nodup)
    (st1 st2 : Store) (resp1 resp2 : List CountryRow)
    (h1 : fetch_countries st result rates data mult now = (st1, .ok resp1))
    (h2 : fetch_countries st1 result rates data mult2 now2 = (st2, .ok resp2)) :
    (namesOf st1.countries).Nodup
    ∧ namesOf st2.countries = namesOf st1.countries
    ∧ (namesOf st2.countries).Nodup
    ∧ st2.countries.length = st1.countries.length := by
  obtain ⟨hr1, hne1, hst1⟩ := fetch_countries_ok_inv _ _ _ _ _ _ _ _ h1
  obtain ⟨hr2, hne2, hst2⟩ := fetch_countries_ok_inv _ _ _ _ _ _ _ _ h2
  have hc1 : st1.countries = upsertAll now resp1 st.countries := by rw [hst1]
  have hc2 : st2.countries = upsertAll now2 resp2 st1.countries := by rw [hst2]
  have hnd1 : (namesOf st1.countries).Nodup := by
    rw [hc1]
    exact nodup_upsertAll now resp1 st.countries hnd
  have hmem : ∀ row ∈ resp2, lowerStr row.name ∈ namesOf st1.countries := by
    intro row hrow
    have hm : lowerStr row.name
        ∈ (rowsFrom rates mult2 0 data).map (fun r => lowerStr r.name) := by
      rw [← hr2]
      exact List.mem_map_of_mem _ hrow
    rw [rowsFrom_names, ← rowsFrom_names rates mult 0 data] at hm
    obtain ⟨row1, hrow1, heq⟩ := List.mem_map.mp hm
    rw [← hr1] at hrow1
    rw [← heq, hc1]
    exact row_mem_namesOf_upsertAll now resp1 st.countries row1 hrow1
  have heqnames : namesOf st2.countries = namesOf st1.countries := by
    rw [hc2]
    exact namesOf_upsertAll_of_mem now2 resp2 st1.countries hmem
  have hlen : st2.countries.length = st1.countries.length := by
    have hl := congrArg List.length heqnames
    simpa [namesOf] using hl
  exact ⟨hnd1, heqnames, heqnames ▸ hnd1, hlen⟩

/-- Witness for C3: refreshing an empty store twice with one upstream country
(`Testland`, currency `TST`, unresolved rate) keeps exactly one row with a
unique lowercased name and does not change the row count. -/
theorem C3_upsert_identity_witness :
    (namesOf [(⟨"Testland".data, none, none, 1000, some ("TST".data),
        none, none, none, 1⟩ : StoredCountry)]).Nodup
    ∧ namesOf [(⟨"Testland".data, none, none, 1000, some ("TST".data),
        none, none, none, 2⟩ : StoredCountry)]
      = namesOf [(⟨"Testland".data, none, none, 1000, some ("TST".data),
        none, none, none, 1⟩ : StoredCountry)]
    ∧ (namesOf [(⟨"Testland".data, none, none, 1000, some ("TST".data),
        none, none, none, 2⟩ : StoredCountry)]).Nodup
    ∧ ([(⟨"Testland".data, none, none, 1000, some ("TST".data),
        none, none, none, 2⟩ : StoredCountry)]).length
      = ([(⟨"Testland".data, none, none, 1000, some ("TST".data),
        none, none, none, 1⟩ : StoredCountry)]).length :=
  C3_upsert_identity ⟨[], none, false⟩ ("success".data) (fun _ => none)
    [⟨"Testland".data, none, none, 1000, ⟨"TST".data, [], "T".data⟩, none, []⟩]
    (fun _ => 1000) (fun _ => 1500) 1 2 (by decide)
    ⟨[⟨"Testland".data, none, none, 1000, some ("TST".data), none, none, none, 1⟩], some 1, true⟩
    ⟨[⟨"Testland".data, none, none, 1000, some ("TST".data), none, none, none, 2⟩], some 2, true⟩
    [⟨"Testland".data, none, none, 1000, some ("TST".data), none, none, none, []⟩]
    [⟨"Testland".data, none, none, 1000, some ("TST".data), none, none, none, []⟩]
    (by decide) (by decide)

theorem likeMatch_nil (t : Str) : likeMatch [] t = t.isEmpty := by
  rw [likeMatch.eq_def]

theorem mem_tails_append (v t : Str) : v ∈ t.tails ↔ ∃ u : Str, t = u ++ v := by
  induction t with
  | nil =>
    simp only [List.tails]
    constructor
    · intro h
      rw [List.mem_singleton] at h
      exact ⟨[], by rw [h]; rfl⟩
    · rintro ⟨u, hu⟩
      rw [List.mem_singleton]
      exact (List.append_eq_nil.mp hu.symm).2
  | cons c t ih =>
    rw [List.tails_cons, List.mem_cons]
    constructor
    · rintro (rfl | hv)
      · exact ⟨[], rfl⟩
      · obtain ⟨u, hu⟩ := ih.mp hv
        exact ⟨c :: u, by rw [List.cons_append, hu]⟩
    · rintro ⟨u, hu⟩
      cases u with
      | nil =>
        left
        simpa using hu.symm
      | cons c0 u0 =>
        right
        rw [List.cons_append] at hu
        injection hu with h1 h2
        exact ih.mpr ⟨u0, h2⟩

theorem likeMatch_pct (p t : Str) :
    likeMatch ('%' :: p) t = t.tails.any (fun v => likeMatch p v) := by
  have h : likeMatch ('%' :: p) t
      = (if ('%' : Char) = '%' then t.tails.any (fun v => likeMatch p v)
         else match t with
           | [] => false
           | c :: t2 =>
             if ('%' : Char) = '_' then likeMatch p t2
             else decide ('%' = c) && likeMatch p t2) := rfl
  rw [h, if_pos rfl]

theorem likeMatch_lit_nil (a : Char) (p : Str) (h1 : a ≠ '%') :
    likeMatch (a :: p) [] = false := by
  rw [likeMatch]
  rw [if_neg h1]

theorem likeMatch_lit_cons (a : Char) (p : Str) (c : Char) (t : Str)
    (h1 : a ≠ '%') (h2 : a ≠ '_') :
    likeMatch (a :: p) (c :: t) = (decide (a = c) && likeMatch p t) := by
  rw [likeMatch]
  rw [if_neg h1]
  show (if a = '_' then likeMatch p t else (decide (a = c) && likeMatch p t))
      = (decide (a = c) && likeMatch p t)
  rw [if_neg h2]

theorem likeMatch_pct_iff (p t : Str) :
    likeMatch ('%' :: p) t = true ↔ ∃ u v : Str, t = u ++ v ∧ likeMatch p v = true := by
  rw [likeMatch_pct, List.any_eq_true]
  constructor
  · rintro ⟨v, hv, hm⟩
    obtain ⟨u, hu⟩ := (mem_tails_append v t).mp hv
    exact ⟨u, v, hu, hm⟩
  · rintro ⟨u, v, huv, hm⟩
    exact ⟨v, (mem_tails_append v t).mpr ⟨u, huv⟩, hm⟩

theorem likeMatch_literal (p : Str) (hp : noWildcards p) (t : Str) :
    likeMatch p t = true ↔ p = t := by
  induction p generalizing t with
  | nil =>
    rw [likeMatch_nil]
    cases t <;> simp
  | cons a p ih =>
    have ha := hp a (List.mem_cons_self a p)
    have hp2 : noWildcards p := fun c hc => hp c (List.mem_cons_of_mem a hc)
    cases t with
    | nil =>
      rw [likeMatch_lit_nil a p ha.1]
      simp
    | cons c t =>
      rw [likeMatch_lit_cons a p c t ha.1 ha.2, Bool.and_eq_true, List.cons.injEq]
      constructor
      · rintro ⟨h1, h2⟩
        exact ⟨of_decide_eq_true h1, (ih hp2 t).mp h2⟩
      · rintro ⟨h1, h2⟩
        exact ⟨decide_eq_true h1, (ih hp2 t).mpr h2⟩

theorem likeMatch_pct_any (v : Str) : likeMatch ['%'] v = true :=
  (likeMatch_pct_iff [] v).mpr ⟨v, [], (List.append_nil v).symm, rfl⟩

theorem likeMatch_prefix_pct (p : Str) (hp : noWildcards p) (v : Str) :
    likeMatch (p ++ ['%']) v = true ↔ ∃ w : Str, v = p ++ w := by
  induction p generalizing v with
  | nil =>
    simp only [List.nil_append]
    constructor
    · intro _
      exact ⟨v, rfl⟩
    · intro _
      exact likeMatch_pct_any v
  | cons a p ih =>
    have ha := hp a (List.mem_cons_self a p)
    have hp2 : noWildcards p := fun c hc => hp c (List.mem_cons_of_mem a hc)
    cases v with
    | nil =>
      rw [List.cons_append, likeMatch_lit_nil _ _ ha.1]
      simp
    | cons c v =>
      rw [List.cons_append, likeMatch_lit_cons _ _ _ _ ha.1 ha.2, Bool.and_eq_true]
      constructor
      · rintro ⟨h1, h2⟩
        obtain ⟨w, hw⟩ := (ih hp2 v).mp h2
        refine ⟨w, ?_⟩
        rw [List.cons_append, ← hw, of_decide_eq_true h1]
      · rintro ⟨w, hw⟩
        rw [List.cons_append] at hw
        injection hw with hc hv
        exact ⟨decide_eq_true hc.symm, (ih hp2 v).mpr ⟨w, hv⟩⟩

theorem likeMatch_substr (f : Str) (hf : noWildcards f) (t : Str) :
    likeMatch ('%' :: (f ++ ['%'])) t = true ↔ ∃ u w : Str, t = u ++ f ++ w := by
  rw [likeMatch_pct_iff]
  constructor
  · rintro ⟨u, v, huv, hv⟩
    obtain ⟨w, hw⟩ := (likeMatch_prefix_pct f hf v).mp hv
    exact ⟨u, w, by rw [huv, hw, List.append_assoc]⟩
  · rintro ⟨u, w, huw⟩
    exact ⟨u, f ++ w, by rw [huw, List.append_assoc],
      (likeMatch_prefix_pct f hf (f ++ w)).mpr ⟨w, rfl⟩⟩

theorem toLower_ne_wildcard (c : Char) (h1 : c ≠ '%') (h2 : c ≠ '_') :
    Char.toLower c ≠ '%' ∧ Char.toLower c ≠ '_' := by
  have hdef : Char.toLower c
      = if c.toNat ≥ 65 ∧ c.toNat ≤ 90 then Char.ofNat (c.toNat + 32) else c := rfl
  rw [hdef]
  by_cases h : c.toNat ≥ 65 ∧ c.toNat ≤ 90
  · rw [if_pos h]
    obtain ⟨ha, hb⟩ := h
    have hval : (c.toNat + 32).isValidChar := by
      left
      omega
    have hofn : (Char.ofNat (c.toNat + 32)).toNat = c.toNat + 32 := by
      unfold Char.ofNat
      rw [dif_pos hval]
      rfl
    have hpct : ('%' : Char).toNat = 37 := by decide
    have hund : ('_' : Char).toNat = 95 := by decide
    constructor
    · intro hc
      have h37 := congrArg Char.toNat hc
      rw [hofn, hpct] at h37
      omega
    · intro hc
      have h95 := congrArg Char.toNat hc
      rw [hofn, hund] at h95
      omega
  · rw [if_neg h]
    exact ⟨h1, h2⟩

theorem noWildcards_lowerStr (s : Str) (h : noWildcards s) : noWildcards (lowerStr s) := by
  intro c hc
  obtain ⟨c0, hc0, rfl⟩ := List.mem_map.mp hc
  exact toLower_ne_wildcard c0 (h c0 hc0).1 (h c0 hc0).2

theorem lowerStr_pattern (s : Str) :
    lowerStr ('%' :: s ++ ['%']) = '%' :: (lowerStr s ++ ['%']) := by
  have hpct : Char.toLower '%' = '%' := by decide
  simp [lowerStr, hpct]

theorem mem_filtered_of_get_all_ok (st : Store) (cf rf sortv : Option Str)
    (res : List StoredCountry) (r : StoredCountry)
    (h : get_all_countries st cf sortv rf = .ok res) (hr : r ∈ res) :
    r ∈ filteredCountries st cf rf := by
  unfold get_all_countries at h
  by_cases hE : (filteredCountries st cf rf).isEmpty
  · rw [if_pos hE] at h
    exact Except.noConfusion h
  · rw [if_neg hE] at h
    by_cases h1 : sortv = some ("gbd_desc".data)
    · rw [if_pos h1] at h
      have hs : sortGdpDesc (filteredCountries st cf rf) = res := by
        simpa using h
      rw [← hs] at hr
      exact (mem_sortByKeyDesc gdpKey r _).mp hr
    · rw [if_neg h1] at h
      by_cases h2 : sortv = some ("gdb_incr".data)
      · rw [if_pos h2] at h
        have hs : sortGdpAsc (filteredCountries st cf rf) = res := by
          simpa using h
        rw [← hs] at hr
        exact (mem_sortByKeyDesc (fun c => -gdpKey c) r _).mp hr
      · rw [if_neg h2] at h
        have hs : filteredCountries st cf rf = res := by
          simpa using h
        rw [← hs] at hr
        exact hr

theorem filteredCountries_mem (st : Store) (cf rf : Option Str) (r : StoredCountry)
    (hr : r ∈ filteredCountries st cf rf) :
    (pyTruthyStr cf = true →
        ilikeColumn r.currency_code ('%' :: cf.getD [] ++ ['%']) = true)
    ∧ (pyTruthyStr rf = true →
        ilikeColumn r.region ('%' :: rf.getD [] ++ ['%']) = true) := by
  unfold filteredCountries at hr
  by_cases hrg : pyTruthyStr rf = true
  · rw [if_pos hrg] at hr
    obtain ⟨hr1, hregion⟩ := List.mem_filter.mp hr
    by_cases hc : pyTruthyStr cf = true
    · rw [if_pos hc] at hr1
      obtain ⟨_, hcurr⟩ := List.mem_filter.mp hr1
      exact ⟨fun _ => hcurr, fun _ => hregion⟩
    · exact ⟨fun hcc => absurd hcc hc, fun _ => hregion⟩
  · rw [if_neg hrg] at hr
    by_cases hc : pyTruthyStr cf = true
    · rw [if_pos hc] at hr
      obtain ⟨_, hcurr⟩ := List.mem_filter.mp hr
      exact ⟨fun _ => hcurr, fun hrr => absurd hrr hrg⟩
    · exact ⟨fun hcc => absurd hcc hc, fun hrr => absurd hrr hrg⟩

theorem ilikeColumn_some (col : Option Str) (pat : Str)
    (h : ilikeColumn col pat = true) :
    ∃ t, col = some t ∧ likeMatch (lowerStr pat) (lowerStr t) = true := by
  cases col with
  | none => exact absurd h (by simp [ilikeColumn])
  | some t => exact ⟨t, rfl, h⟩

/-- C4 counterexample: the filters are interpreted as SQL LIKE patterns, so
a filter containing the `_` wildcard matches rows whose `currency_code` does
not contain the filter as a substring: filtering by currency `u_d` returns
the `USD` record although `u_d` is not a substring of `usd`. -/
theorem C4_wildcard_filter_counterexample :
    get_all_countries
        ⟨[⟨"America".data, none, none, 1, some ("USD".data), none, none, none, 0⟩],
          none, false⟩
        (some ("u_d".data)) none none
      = .ok [⟨"America".data, none, none, 1, some ("USD".data), none, none, none, 0⟩]
    ∧ ¬ substrOf (lowerStr ("u_d".data)) (lowerStr ("USD".data)) := by
  constructor
  · decide
  · show ¬ substrOf ['u', '_', 'd'] ['u', 's', 'd']
    rintro ⟨u, w, huw⟩
    have hlen := congrArg List.length huw
    simp only [List.length_append, List.length_cons, List.length_nil] at hlen
    have hu : u = [] := List.eq_nil_of_length_eq_zero (by omega)
    have hw : w = [] := List.eq_nil_of_length_eq_zero (by omega)
    subst hu
    subst hw
    simp only [List.nil_append, List.append_nil] at huw
    exact absurd huw (by decide)

/-- C4 (amended): provided the filter strings contain no SQL LIKE wildcard
characters (`%` or `_`), every record returned by `GET /countries` under a
currency filter (resp. region filter) has a non-null `currency_code`
(resp. `region`) containing the filter as a case-insensitive substring; when
both filters are given both conditions hold (they are ANDed); and an empty
filtered result yields the 404 `NotFoundException` rather than an empty
success.  (Filters containing `%` or `_` are instead interpreted as LIKE
patterns by the `ilike` query.) -/
theorem C4_filtering (st : Store) (cf rf sortv : Option Str)
    (hcf : ∀ s, cf = some s → noWildcards s)
    (hrf : ∀ s, rf = some s → noWildcards s) :
    (∀ res r, get_all_countries st cf sortv rf = .ok res → r ∈ res →
        (∀ s, cf = some s → s ≠ [] →
            ∃ t, r.currency_code = some t ∧ substrOf (lowerStr s) (lowerStr t))
        ∧ (∀ s, rf = some s → s ≠ [] →
            ∃ t, r.region = some t ∧ substrOf (lowerStr s) (lowerStr t)))
    ∧ (filteredCountries st cf rf = [] →
        get_all_countries st cf sortv rf
          = .error (notFoundException ("Country not found".data))) := by
  constructor
  · intro res r hok hr
    have hmemf := mem_filtered_of_get_all_ok st cf rf sortv res r hok hr
    obtain ⟨hcur, hreg⟩ := filteredCountries_mem st cf rf r hmemf
    constructor
    · intro s hs hne
      have htr : pyTruthyStr cf = true := by
        rw [hs]
        cases s with
        | nil => exact absurd rfl hne
        | cons c cs => rfl
      have hilike := hcur htr
      rw [hs] at hilike
      simp only [Option.getD_some] at hilike
      obtain ⟨t, hcol, hmatch⟩ := ilikeColumn_some _ _ hilike
      rw [lowerStr_pattern] at hmatch
      have hnw := noWildcards_lowerStr s (hcf s hs)
      obtain ⟨u, w, huw⟩ := (likeMatch_substr (lowerStr s) hnw (lowerStr t)).mp hmatch
      exact ⟨t, hcol, u, w, huw⟩
    · intro s hs hne
      have htr : pyTruthyStr rf = true := by
        rw [hs]
        cases s with
        | nil => exact absurd rfl hne
        | cons c cs => rfl
      have hilike := hreg htr
      rw [hs] at hilike
      simp only [Option.getD_some] at hilike
      obtain ⟨t, hcol, hmatch⟩ := ilikeColumn_some _ _ hilike
      rw [lowerStr_pattern] at hmatch
      have hnw := noWildcards_lowerStr s (hrf s hs)
      obtain ⟨u, w, huw⟩ := (likeMatch_substr (lowerStr s) hnw (lowerStr t)).mp hmatch
      exact ⟨t, hcol, u, w, huw⟩
  · intro hnil
    unfold get_all_countries
    rw [if_pos (by simp [hnil])]

/-- Witness for C4: filtering by currency `us` returns the `USD` record, and
`us` is indeed a case-insensitive substring of its currency code. -/
theorem C4_filtering_witness :
    ∃ t, (⟨"America".data, none, none, 1, some ("USD".data), none, none, none, 0⟩ :
        StoredCountry).currency_code = some t
      ∧ substrOf (lowerStr ("us".data)) (lowerStr t) :=
  ((C4_filtering
      ⟨[⟨"America".data, none, none, 1, some ("USD".data), none, none, none, 0⟩],
        none, false⟩
      (some ("us".data)) none none
      (fun s hs => by
        injection hs with hs2
        subst hs2
        decide)
      (fun s hs => Option.noConfusion hs)).1
    [⟨"America".data, none, none, 1, some ("USD".data), none, none, none, 0⟩]
    ⟨"America".data, none, none, 1, some ("USD".data), none, none, none, 0⟩
    (by decide) (by decide)).1 ("us".data) rfl (by decide)
